import Mathlib

/-!
# Verification of the tarantool fiber runtime and tuple-update engine

Shallow embedding of the code under `src/src/box/update/` (`update.c`,
`update_field.c`, `update_bar.c`, `update_route.c`) and
`src/src/lib/core/fiber.c`.  Byte buffers are modelled as `List Nat`
(each element a byte value), pointers into buffers as explicit list
splits, and machine integers as `Nat`/`Int` with explicit `% 2^w`
where overflow matters.
-/

namespace Tarantool

instance {ε α : Type} [DecidableEq ε] [DecidableEq α] :
    DecidableEq (Except ε α) := fun x y =>
  match x, y with
  | .ok a, .ok b => if h : a = b then .isTrue (by simp [h]) else .isFalse (by simp [h])
  | .error a, .error b => if h : a = b then .isTrue (by simp [h]) else .isFalse (by simp [h])
  | .ok _, .error _ => .isFalse (by simp)
  | .error _, .ok _ => .isFalse (by simp)

/-! ## MsgPack (msgpuck) sizeof/encode primitives

The msgpuck codec is an external collaborator (spec §6).  The encoders
below reproduce the msgpuck wire format: a tag byte followed by a
big-endian payload.  Multi-byte numeric payloads are produced by
`be_bytes`. -/

/-- Big-endian bytes of `v`, exactly `k` bytes (msgpuck stores u8/u16/u32/u64
payloads big-endian). -/
def be_bytes : Nat → Nat → List Nat
  | 0, _ => []
  | k + 1, v => (v / 256 ^ k) % 256 :: be_bytes k v

theorem be_bytes_length (k v : Nat) : (be_bytes k v).length = k := by
  induction k generalizing v with
  | zero => rfl
  | succ n ih => simp [be_bytes, ih]

/-- `mp_sizeof_uint` from msgpuck. -/
def mp_sizeof_uint (v : Nat) : Nat :=
  if v ≤ 0x7f then 1
  else if v ≤ 0xff then 2
  else if v ≤ 0xffff then 3
  else if v ≤ 0xffffffff then 5
  else 9

/-- `mp_encode_uint` from msgpuck: fixuint, or a tag `0xcc`/`0xcd`/`0xce`/`0xcf`
followed by the big-endian payload. -/
def mp_encode_uint (v : Nat) : List Nat :=
  if v ≤ 0x7f then [v]
  else if v ≤ 0xff then [0xcc, v]
  else if v ≤ 0xffff then 0xcd :: be_bytes 2 v
  else if v ≤ 0xffffffff then 0xce :: be_bytes 4 v
  else 0xcf :: be_bytes 8 v

theorem mp_encode_uint_length (v : Nat) :
    (mp_encode_uint v).length = mp_sizeof_uint v := by
  unfold mp_encode_uint mp_sizeof_uint
  split <;> try rfl
  split <;> try rfl
  split
  · simp [be_bytes_length]
  split <;> simp [be_bytes_length]

/-- `mp_sizeof_int` from msgpuck (defined for strictly negative arguments). -/
def mp_sizeof_int (v : Int) : Nat :=
  if -0x20 ≤ v then 1
  else if -0x80 ≤ v then 2
  else if -0x8000 ≤ v then 3
  else if -0x80000000 ≤ v then 5
  else 9

/-- `mp_encode_int` from msgpuck: negative fixint or tag `0xd0`/`0xd1`/`0xd2`/`0xd3`
followed by the two's-complement payload, big-endian. -/
def mp_encode_int (v : Int) : List Nat :=
  if -0x20 ≤ v then [(v + 256).toNat % 256]
  else if -0x80 ≤ v then [0xd0, (v + 256).toNat % 256]
  else if -0x8000 ≤ v then 0xd1 :: be_bytes 2 (v + 2 ^ 16).toNat
  else if -0x80000000 ≤ v then 0xd2 :: be_bytes 4 (v + 2 ^ 32).toNat
  else 0xd3 :: be_bytes 8 (v + 2 ^ 64).toNat

theorem mp_encode_int_length (v : Int) :
    (mp_encode_int v).length = mp_sizeof_int v := by
  unfold mp_encode_int mp_sizeof_int
  split <;> try rfl
  split <;> try rfl
  split
  · simp [be_bytes_length]
  split <;> simp [be_bytes_length]

/-- `mp_sizeof_strl` from msgpuck: size of the header of a string of
length `len`. -/
def mp_sizeof_strl (len : Nat) : Nat :=
  if len ≤ 31 then 1
  else if len ≤ 0xff then 2
  else if len ≤ 0xffff then 3
  else 5

/-- `mp_encode_strl` from msgpuck: fixstr tag, or `0xd9`/`0xda`/`0xdb` with the
big-endian length. -/
def mp_encode_strl (len : Nat) : List Nat :=
  if len ≤ 31 then [0xa0 + len]
  else if len ≤ 0xff then [0xd9, len]
  else if len ≤ 0xffff then 0xda :: be_bytes 2 len
  else 0xdb :: be_bytes 4 len

theorem mp_encode_strl_length (len : Nat) :
    (mp_encode_strl len).length = mp_sizeof_strl len := by
  unfold mp_encode_strl mp_sizeof_strl
  split <;> try rfl
  split <;> try rfl
  split <;> simp [be_bytes_length]

/-- `mp_sizeof_str` from msgpuck: header plus payload. -/
def mp_sizeof_str (len : Nat) : Nat :=
  mp_sizeof_strl len + len

/-- `mp_encode_str` from msgpuck: header then the string bytes. -/
def mp_encode_str (s : List Nat) : List Nat :=
  mp_encode_strl s.length ++ s

theorem mp_encode_str_length (s : List Nat) :
    (mp_encode_str s).length = mp_sizeof_str s.length := by
  simp [mp_encode_str, mp_sizeof_str, mp_encode_strl_length]

/-- `mp_sizeof_array` from msgpuck. -/
def mp_sizeof_array (n : Nat) : Nat :=
  if n ≤ 15 then 1
  else if n ≤ 0xffff then 3
  else 5

/-- `mp_encode_array` from msgpuck: fixarray tag, or `0xdc`/`0xdd` with the
big-endian count. -/
def mp_encode_array (n : Nat) : List Nat :=
  if n ≤ 15 then [0x90 + n]
  else if n ≤ 0xffff then 0xdc :: be_bytes 2 n
  else 0xdd :: be_bytes 4 n

theorem mp_encode_array_length (n : Nat) :
    (mp_encode_array n).length = mp_sizeof_array n := by
  unfold mp_encode_array mp_sizeof_array
  split <;> try rfl
  split <;> simp [be_bytes_length]

/-- `mp_sizeof_map` from msgpuck. -/
def mp_sizeof_map (n : Nat) : Nat :=
  if n ≤ 15 then 1
  else if n ≤ 0xffff then 3
  else 5

/-- `mp_encode_map` from msgpuck: fixmap tag, or `0xde`/`0xdf` with the
big-endian count. -/
def mp_encode_map (n : Nat) : List Nat :=
  if n ≤ 15 then [0x80 + n]
  else if n ≤ 0xffff then 0xde :: be_bytes 2 n
  else 0xdf :: be_bytes 4 n

theorem mp_encode_map_length (n : Nat) :
    (mp_encode_map n).length = mp_sizeof_map n := by
  unfold mp_encode_map mp_sizeof_map
  split <;> try rfl
  split <;> simp [be_bytes_length]

/-- `mp_sizeof_double` from msgpuck: tag `0xcb` plus 8 payload bytes. -/
def mp_sizeof_double : Nat := 9

/-- `mp_encode_double` from msgpuck.  The IEEE-754 bit pattern of the payload
is outside this embedding (the update engine never inspects it); only the
fixed 8-byte width matters, so the payload is modelled as zero bytes. -/
def mp_encode_double (_d : Rat) : List Nat :=
  0xcb :: List.replicate 8 0

theorem mp_encode_double_length (d : Rat) :
    (mp_encode_double d).length = mp_sizeof_double := by
  simp [mp_encode_double, mp_sizeof_double]

/-- `mp_sizeof_float` from msgpuck: tag `0xca` plus 4 payload bytes. -/
def mp_sizeof_float : Nat := 5

/-- `mp_encode_float` from msgpuck; payload bits modelled as for
`mp_encode_double`. -/
def mp_encode_float (_f : Rat) : List Nat :=
  0xca :: List.replicate 4 0

theorem mp_encode_float_length (f : Rat) :
    (mp_encode_float f).length = mp_sizeof_float := by
  simp [mp_encode_float, mp_sizeof_float]

/-- Modelled from the spec: the decimal library (`decimal_pack`) is an external
collaborator (spec §6, "A decimal library: ... `pack`, `unpack`, `sizeof`").
Decimal values are modelled as exact rationals; the packed representation is
modelled as an MP_EXT-style blob derived from the value.  The update engine
relies only on the contract that `mp_sizeof_decimal` reports the length of
`mp_encode_decimal`'s output, which holds by construction here. -/
def mp_encode_decimal (d : Rat) : List Nat :=
  0xc7 :: (d.num.natAbs % 256) :: be_bytes 2 d.den

/-- Modelled from the spec: `mp_sizeof_decimal`, the external decimal
library's size report for a packed decimal. -/
def mp_sizeof_decimal (d : Rat) : Nat :=
  (mp_encode_decimal d).length

theorem mp_encode_decimal_length (d : Rat) :
    (mp_encode_decimal d).length = mp_sizeof_decimal d := rfl

/-! ## Error taxonomy (spec §7, `box/error.h` kinds used by the update engine) -/

/-- Client-error kinds raised by the update engine (`diag_set(ClientError, ...)`
sites in `update.c` / `update_field.c`). -/
inductive UpdError
  | illegalParams (msg : String)
  | unknownUpdateOp
  | noSuchFieldNo (fieldNo : Int)
  | noSuchFieldName
  | updateArgType (neededType : String)
  | updateIntegerOverflow
  | updateDecimalOverflow
  | updateSplice (msg : String)
  | updateField (reason : String)
  deriving DecidableEq, Repr

/-! ## Arithmetic (`update_field.c`, `make_arith_operation` and helpers)

`enum arith_type` lives in `update_field.h`; its numeric values
(`AT_DECIMAL = 0 < AT_DOUBLE = 1 < AT_FLOAT = 2 < AT_INT = 3`) are forced
by the comparisons in `make_arith_operation` (`lowest == AT_INT` only when
both operands are INT, `lowest >= AT_DOUBLE` covering DOUBLE and FLOAT,
the last else branch being DECIMAL). -/

/-- `enum arith_type` with its numeric code order. -/
inductive arith_type
  | AT_DECIMAL
  | AT_DOUBLE
  | AT_FLOAT
  | AT_INT
  deriving DecidableEq, Repr

/-- The C enum value, used for the `lowest_type` comparisons. -/
def arith_type.code : arith_type → Nat
  | .AT_DECIMAL => 0
  | .AT_DOUBLE => 1
  | .AT_FLOAT => 2
  | .AT_INT => 3

/-- `struct op_arith_arg`: tagged union over the four arithmetic domains.
The int96 accumulator is an `Int` (every value reachable from two 64-bit
operands fits in 96 bits, so no wraparound is reachable); `float`/`double`
and decimal payloads are modelled as exact rationals (the claims settled
here depend only on the result tags, never on IEEE rounding). -/
inductive op_arith_arg
  | int (i96 : Int)
  | dbl (d : Rat)
  | flt (f : Rat)
  | dec (d : Rat)
  deriving DecidableEq, Repr

/-- The `type` tag of an `op_arith_arg`. -/
def op_arith_arg.type : op_arith_arg → arith_type
  | .int _ => .AT_INT
  | .dbl _ => .AT_DOUBLE
  | .flt _ => .AT_FLOAT
  | .dec _ => .AT_DECIMAL

/-- `int96_is_uint64`: the 96-bit accumulator holds a value representable
as `u64`. -/
def int96_is_uint64 (v : Int) : Prop := 0 ≤ v ∧ v < 2 ^ 64

instance (v : Int) : Decidable (int96_is_uint64 v) := by
  unfold int96_is_uint64; infer_instance

/-- `int96_is_neg_int64`: the accumulator holds a negative value
representable as `i64`. -/
def int96_is_neg_int64 (v : Int) : Prop := -(2 ^ 63) ≤ v ∧ v < 0

instance (v : Int) : Decidable (int96_is_neg_int64 v) := by
  unfold int96_is_neg_int64; infer_instance

/-- `int96_invert` (negation of the 96-bit accumulator). -/
def int96_invert (v : Int) : Int := -v

/-- `cast_arith_arg_to_double` (`update_field.c`): DOUBLE and FLOAT pass
through, INT converts via its u64 / negative-i64 extraction. -/
def cast_arith_arg_to_double : op_arith_arg → Rat
  | .dbl d => d
  | .flt f => f
  | .int v => (v : Rat)
  | .dec d => d

/-- `cast_arith_arg_to_decimal` (`update_field.c`).  `decimal_from_double` /
`decimal_from_uint64` / `decimal_from_int64` belong to the external decimal
library and are modelled as the exact rational injection (they can fail only
on NaN/Inf inputs, which have no model here). -/
def cast_arith_arg_to_decimal : op_arith_arg → Option Rat
  | .dec d => some d
  | .dbl d => some d
  | .flt f => some f
  | .int v => some (v : Rat)

/-- Modelled from the spec: `decimal_add` of the external decimal library
(spec §6).  Overflow of the fixed decimal precision is not modelled; the
claims proved below do not exercise it. -/
def decimal_add (a b : Rat) : Option Rat := some (a + b)

/-- Modelled from the spec: `decimal_sub` of the external decimal library. -/
def decimal_sub (a b : Rat) : Option Rat := some (a - b)

/-- `update_arith_sizeof` (`update_field.c`): MsgPack size of an arithmetic
result. -/
def update_arith_sizeof : op_arith_arg → Nat
  | .int v =>
    if int96_is_uint64 v then mp_sizeof_uint v.toNat
    else mp_sizeof_int v
  | .dbl _ => mp_sizeof_double
  | .flt _ => mp_sizeof_float
  | .dec d => mp_sizeof_decimal d

/-- `store_op_arith` (`update_field.c`): the bytes written for an arithmetic
result. -/
def store_op_arith : op_arith_arg → List Nat
  | .int v =>
    if int96_is_uint64 v then mp_encode_uint v.toNat
    else mp_encode_int v
  | .dbl d => mp_encode_double d
  | .flt f => mp_encode_float f
  | .dec d => mp_encode_decimal d

theorem store_op_arith_length (a : op_arith_arg) :
    (store_op_arith a).length = update_arith_sizeof a := by
  cases a with
  | int v =>
    simp only [store_op_arith, update_arith_sizeof]
    split
    · exact mp_encode_uint_length _
    · exact mp_encode_int_length _
  | dbl d => exact mp_encode_double_length d
  | flt f => exact mp_encode_float_length f
  | dec d => exact mp_encode_decimal_length d

/-- `make_arith_operation` (`update_field.c:347-422`): apply `opcode`
(`'+'` or `'-'`, the only opcodes reaching this function; the C
`unreachable()` default is modelled as an `unknownUpdateOp` error) to
`arg1` (the old field value) and `arg2` (the operation argument).
`lowest_type` is the operand type with the smaller enum code. -/
def make_arith_operation (opcode : Char) (arg1 arg2 : op_arith_arg) :
    Except UpdError op_arith_arg :=
  let lowest_type := if arg1.type.code > arg2.type.code then arg2.type
                     else arg1.type
  if lowest_type = .AT_INT then
    match arg1, arg2 with
    | .int v1, .int v2 =>
      match opcode with
      | '+' =>
        let sum := v1 + v2
        if ¬int96_is_uint64 sum ∧ ¬int96_is_neg_int64 sum then
          .error .updateIntegerOverflow
        else .ok (.int sum)
      | '-' =>
        let sum := v1 + int96_invert v2
        if ¬int96_is_uint64 sum ∧ ¬int96_is_neg_int64 sum then
          .error .updateIntegerOverflow
        else .ok (.int sum)
      | _ => .error .unknownUpdateOp
    | _, _ => .error .unknownUpdateOp
  else if lowest_type.code ≥ arith_type.code .AT_DOUBLE then
    let a := cast_arith_arg_to_double arg1
    let b := cast_arith_arg_to_double arg2
    match opcode with
    | '+' =>
      if lowest_type = .AT_DOUBLE then .ok (.dbl (a + b)) else .ok (.flt (a + b))
    | '-' =>
      if lowest_type = .AT_DOUBLE then .ok (.dbl (a - b)) else .ok (.flt (a - b))
    | _ => .error .unknownUpdateOp
  else
    match cast_arith_arg_to_decimal arg1, cast_arith_arg_to_decimal arg2 with
    | some a, some b =>
      match opcode with
      | '+' =>
        match decimal_add a b with
        | some c => .ok (.dec c)
        | none => .error .updateDecimalOverflow
      | '-' =>
        match decimal_sub a b with
        | some c => .ok (.dec c)
        | none => .error .updateDecimalOverflow
      | _ => .error .unknownUpdateOp
    | _, _ => .error (.updateArgType "a number convertible to decimal")

/-! ## Field tree (`struct update_field` and the sizer/emitter)

One node of the update tree.  Byte pointers of the C structs become
explicit list splits: a field's original extent (`field->data`,
`field->size`) is recovered by `update_field.size` below.

* `nop`, `scalar`: `update_field.c:103-153`.  A scalar node holds the
  operation whose result already overwrote its argument (spec §3
  invariant (ii)); for a splice the `head`/`tail` slices of the old
  string payload stand for the reads `store_op_splice` performs through
  its `in` pointer.
* `bar_*`: the five shapes of `update_bar_sizeof` / `update_bar_store`
  (`update_bar.c:291-408`): insertion into an array/map, deletion from
  an array/map, and a scalar point update.  `pre` is the bytes before
  the parent header (`field->data .. bar.parent`), `n` the parent's
  field count (decoded from the header the C code re-reads), `mid` the
  bytes between the header and `bar.point`, `point` the located point
  bytes, `rest` the tail.  The constructor proofs record the
  `assert(array_size >= delete_count)` / `assert(delete_count == 1)`
  reachability invariants established by `do_op_nop_delete`.
* `route`: `update_route.c:356-374`; the next hop's original extent sits
  between `pre` and `post` inside the route's own extent.
* `array`, `map`: modelled from the spec (`update_array.c` and
  `update_map.c` are not part of the excerpt): spec §4.I — the size
  pass produces the header size plus the children's sizes, the emit
  pass writes the header and the children (§3: an ARRAY is a rope over
  child field nodes; a MAP holds key/child pairs).  `n` is the field
  count written into the header (a NOP child may cover several fields,
  so `n` is carried explicitly), `orig` the node's original extent. -/

/-- A leaf operation in scalar position, result already in the args. -/
inductive scalar_op
  | set (value : List Nat)
  | arith (res : op_arith_arg)
  | bit (val : Nat)
  | splice (head paste tail : List Nat)

/-- `op->new_field_len` of a scalar-position operation, as computed by
`do_op_set` (length of the set argument), `update_op_do_arith`,
`update_op_do_bit` and `update_op_do_splice` (`update_field.c`). -/
def scalar_op.new_field_len : scalar_op → Nat
  | .set value => value.length
  | .arith res => update_arith_sizeof res
  | .bit val => mp_sizeof_uint val
  | .splice head paste tail =>
    mp_sizeof_str (head.length + paste.length + tail.length)

/-- `op->meta->store`: the bytes the store callback writes
(`store_op_set`, `store_op_arith`, `store_op_bit`, `store_op_splice`,
`update_field.c:496-553`). -/
def scalar_op.store : scalar_op → List Nat
  | .set value => value
  | .arith res => store_op_arith res
  | .bit val => mp_encode_uint val
  | .splice head paste tail =>
    mp_encode_strl (head.length + paste.length + tail.length) ++
      head ++ paste ++ tail

theorem scalar_op_store_length (op : scalar_op) :
    op.store.length = op.new_field_len := by
  cases op with
  | set value => rfl
  | arith res => exact store_op_arith_length res
  | bit val => exact mp_encode_uint_length val
  | splice head paste tail =>
    simp [scalar_op.store, scalar_op.new_field_len, mp_sizeof_str,
          mp_encode_strl_length]
    omega

mutual

inductive update_field
  | nop (data : List Nat)
  | scalar (orig : List Nat) (op : scalar_op)
  | array (orig : List Nat) (n : Nat) (children : field_list)
  | map (orig : List Nat) (n : Nat) (pairs : pair_list)
  | bar_ins_arr (pre mid rest : List Nat) (n : Nat) (value : List Nat)
  | bar_ins_map (pre body : List Nat) (n : Nat) (key value : List Nat)
  | bar_del_arr (pre mid point rest : List Nat) (n d : Nat) (hdn : d ≤ n)
  | bar_del_map (pre mid point rest : List Nat) (n : Nat) (hn : 1 ≤ n)
  | bar_scalar (pre point rest : List Nat) (op : scalar_op)
  | route (pre : List Nat) (next : update_field) (post : List Nat)

inductive field_list
  | nil
  | cons (hd : update_field) (tl : field_list)

inductive pair_list
  | nil
  | cons (key : List Nat) (hd : update_field) (tl : pair_list)

end

mutual

/-- `field->size`: the node's original byte extent. -/
def update_field.size : update_field → Nat
  | .nop data => data.length
  | .scalar orig _ => orig.length
  | .array orig _ _ => orig.length
  | .map orig _ _ => orig.length
  | .bar_ins_arr pre mid rest n _ =>
    (pre ++ mp_encode_array n ++ mid ++ rest).length
  | .bar_ins_map pre body n _ _ =>
    (pre ++ mp_encode_map n ++ body).length
  | .bar_del_arr pre mid point rest n _ _ =>
    (pre ++ mp_encode_array n ++ mid ++ point ++ rest).length
  | .bar_del_map pre mid point rest n _ =>
    (pre ++ mp_encode_map n ++ mid ++ point ++ rest).length
  | .bar_scalar pre point rest _ =>
    (pre ++ point ++ rest).length
  | .route pre next post => pre.length + next.size + post.length

end

/-- `update_bar_sizeof` (`update_bar.c:291-330`), by bar shape. -/
def update_bar_sizeof : update_field → Nat
  | .bar_ins_arr pre mid rest n value =>
    (update_field.size (.bar_ins_arr pre mid rest n value) + value.length) +
      mp_sizeof_array (n + 1) - mp_sizeof_array n
  | .bar_ins_map pre body n key value =>
    (update_field.size (.bar_ins_map pre body n key value) +
      (value.length + mp_sizeof_str key.length)) +
      mp_sizeof_map (n + 1) - mp_sizeof_map n
  | f@(.bar_del_arr _ _ point _ n d _) =>
    (update_field.size f - point.length) - mp_sizeof_array n +
      mp_sizeof_array (n - d)
  | f@(.bar_del_map _ _ point _ n _) =>
    (update_field.size f - point.length) - mp_sizeof_map n +
      mp_sizeof_map (n - 1)
  | f@(.bar_scalar _ point _ op) =>
    update_field.size f - point.length + op.new_field_len
  | _ => 0

/-- `update_bar_store` (`update_bar.c:332-408`), by bar shape: the bytes
written into the output buffer. -/
def update_bar_store : update_field → List Nat
  | .bar_ins_arr pre mid rest n value =>
    pre ++ mp_encode_array (n + 1) ++ mid ++ value ++ rest
  | .bar_ins_map pre body n key value =>
    pre ++ mp_encode_map (n + 1) ++ mp_encode_str key ++ value ++ body
  | .bar_del_arr pre mid _ rest n d _ =>
    pre ++ mp_encode_array (n - d) ++ mid ++ rest
  | .bar_del_map pre mid _ rest n _ =>
    pre ++ mp_encode_map (n - 1) ++ mid ++ rest
  | .bar_scalar pre _ rest op =>
    pre ++ op.store ++ rest
  | _ => []

mutual

/-- `update_field_sizeof` (`update_field.c:103-123`) together with
`update_array_sizeof` / `update_map_sizeof` (modelled from the spec,
§4.I) and `update_route_sizeof` (`update_route.c:356-361`). -/
def update_field_sizeof : update_field → Nat
  | .nop data => data.length
  | .scalar _ op => op.new_field_len
  | .array _ n children => mp_sizeof_array n + field_list_sizeof children
  | .map _ n pairs => mp_sizeof_map n + pair_list_sizeof pairs
  | f@(.bar_ins_arr _ _ _ _ _) => update_bar_sizeof f
  | f@(.bar_ins_map _ _ _ _ _) => update_bar_sizeof f
  | f@(.bar_del_arr _ _ _ _ _ _ _) => update_bar_sizeof f
  | f@(.bar_del_map _ _ _ _ _ _) => update_bar_sizeof f
  | f@(.bar_scalar _ _ _ _) => update_bar_sizeof f
  | f@(.route _ next _) =>
    update_field.size f - next.size + update_field_sizeof next

def field_list_sizeof : field_list → Nat
  | .nil => 0
  | .cons hd tl => update_field_sizeof hd + field_list_sizeof tl

def pair_list_sizeof : pair_list → Nat
  | .nil => 0
  | .cons key hd tl =>
    mp_sizeof_str key.length + update_field_sizeof hd + pair_list_sizeof tl

end

mutual

/-- `update_field_store` (`update_field.c:125-153`) together with
`update_array_store` / `update_map_store` (modelled from the spec,
§4.I) and `update_route_store` (`update_route.c:363-374`): the bytes
written into the output buffer. -/
def update_field_store : update_field → List Nat
  | .nop data => data
  | .scalar _ op => op.store
  | .array _ n children => mp_encode_array n ++ field_list_store children
  | .map _ n pairs => mp_encode_map n ++ pair_list_store pairs
  | f@(.bar_ins_arr _ _ _ _ _) => update_bar_store f
  | f@(.bar_ins_map _ _ _ _ _) => update_bar_store f
  | f@(.bar_del_arr _ _ _ _ _ _ _) => update_bar_store f
  | f@(.bar_del_map _ _ _ _ _ _) => update_bar_store f
  | f@(.bar_scalar _ _ _ _) => update_bar_store f
  | .route pre next post => pre ++ update_field_store next ++ post

def field_list_store : field_list → List Nat
  | .nil => []
  | .cons hd tl => update_field_store hd ++ field_list_store tl

def pair_list_store : pair_list → List Nat
  | .nil => []
  | .cons key hd tl =>
    mp_encode_str key ++ update_field_store hd ++ pair_list_store tl

end

/-- `update_finish` (`update.c:318-331`): compute the size (`tuple_len`),
emit the tree into the buffer, and return the buffer together with the
number of bytes actually written (`*p_tuple_len`, the return value of
the store pass). -/
def update_finish (root : update_field) : List Nat × Nat :=
  let _tuple_len := update_field_sizeof root
  let buffer := update_field_store root
  (buffer, buffer.length)

mutual

theorem update_field_store_length :
    ∀ f : update_field, (update_field_store f).length = update_field_sizeof f
  | .nop _ => rfl
  | .scalar _ op => scalar_op_store_length op
  | .array _ n children => by
    have ih := field_list_store_length children
    simp [update_field_store, update_field_sizeof, mp_encode_array_length, ih]
  | .map _ n pairs => by
    have ih := pair_list_store_length pairs
    simp [update_field_store, update_field_sizeof, mp_encode_map_length, ih]
  | .bar_ins_arr pre mid rest n value => by
    simp [update_field_store, update_field_sizeof, update_bar_store,
          update_bar_sizeof, update_field.size, mp_encode_array_length]
    omega
  | .bar_ins_map pre body n key value => by
    simp [update_field_store, update_field_sizeof, update_bar_store,
          update_bar_sizeof, update_field.size, mp_encode_map_length,
          mp_encode_str_length, mp_sizeof_str]
    omega
  | .bar_del_arr pre mid point rest n d hdn => by
    simp [update_field_store, update_field_sizeof, update_bar_store,
          update_bar_sizeof, update_field.size, mp_encode_array_length]
    omega
  | .bar_del_map pre mid point rest n hn => by
    simp [update_field_store, update_field_sizeof, update_bar_store,
          update_bar_sizeof, update_field.size, mp_encode_map_length]
    omega
  | .bar_scalar pre point rest op => by
    have h := scalar_op_store_length op
    simp [update_field_store, update_field_sizeof, update_bar_store,
          update_bar_sizeof, update_field.size, h]
    omega
  | .route pre next post => by
    have ih := update_field_store_length next
    simp [update_field_store, update_field_sizeof, update_field.size, ih]
    omega

theorem field_list_store_length :
    ∀ l : field_list, (field_list_store l).length = field_list_sizeof l
  | .nil => rfl
  | .cons hd tl => by
    have ih1 := update_field_store_length hd
    have ih2 := field_list_store_length tl
    simp [field_list_store, field_list_sizeof, ih1, ih2]

theorem pair_list_store_length :
    ∀ l : pair_list, (pair_list_store l).length = pair_list_sizeof l
  | .nil => rfl
  | .cons key hd tl => by
    have ih1 := update_field_store_length hd
    have ih2 := pair_list_store_length tl
    simp [pair_list_store, pair_list_sizeof, ih1, ih2,
          mp_encode_str_length]
    omega

end

/-- C1: for every field tree, the size pass equals the emit pass — the
value of `update_field_sizeof` (and its per-variant helpers) equals the
number of bytes written by the corresponding store functions, so
`update_finish` returns a `*p_tuple_len` equal to the pre-computed
`tuple_len` and a buffer of exactly that length. -/
theorem C1_sizeof_equals_store (f : update_field) :
    (update_field_store f).length = update_field_sizeof f ∧
    (update_finish f).2 = update_field_sizeof f ∧
    (update_finish f).1.length = update_field_sizeof f :=
  ⟨update_field_store_length f, update_field_store_length f,
   update_field_store_length f⟩

/-! ## C5: result type of `'+'` / `'-'` (`make_arith_operation`) -/

/-- The expressiveness order as written in the claim:
INT ≺ FLOAT ≺ DOUBLE ≺ DECIMAL. -/
def arith_type.expressiveness : arith_type → Nat
  | .AT_INT => 0
  | .AT_FLOAT => 1
  | .AT_DOUBLE => 2
  | .AT_DECIMAL => 3

/-- The claim's words: the least-expressive of the two operand types
under INT ≺ FLOAT ≺ DOUBLE ≺ DECIMAL. -/
def spec_least_expressive (a b : arith_type) : arith_type :=
  if a.expressiveness ≤ b.expressiveness then a else b

/-- The greatest (most expressive) of the two operand types under
INT ≺ FLOAT ≺ DOUBLE ≺ DECIMAL. -/
def spec_most_expressive (a b : arith_type) : arith_type :=
  if a.expressiveness ≤ b.expressiveness then b else a

/-- Evaluation of `make_arith_operation` at the mixed INT/DOUBLE input. -/
theorem make_arith_int_dbl_eval :
    make_arith_operation '+' (.int 1) (.dbl 1) = .ok (.dbl 2) := by
  simp only [make_arith_operation, op_arith_arg.type, arith_type.code,
    cast_arith_arg_to_double]
  norm_num
  intro hc
  exact absurd hc (by decide)

/-- C5 counterexample: adding a DOUBLE argument to an INT field succeeds
with a DOUBLE result, while the least-expressive operand type under
INT ≺ FLOAT ≺ DOUBLE ≺ DECIMAL is INT — the result type is not the
least-expressive operand type. -/
theorem C5_counterexample :
    make_arith_operation '+' (.int 1) (.dbl 1) = .ok (.dbl 2) ∧
    spec_least_expressive (op_arith_arg.int 1).type
      (op_arith_arg.dbl 1).type = .AT_INT ∧
    (op_arith_arg.dbl 2).type ≠ arith_type.AT_INT := by
  exact ⟨make_arith_int_dbl_eval, by decide, by decide⟩

/-- C5 amended: for `'+'`/`'-'` the result type is the *most* expressive
operand type under INT ≺ FLOAT ≺ DOUBLE ≺ DECIMAL; in particular mixing
INT with FLOAT or DOUBLE computes in the floating accumulator and mixing
INT with DECIMAL converts to decimal. -/
theorem C5_arith_result_type (oc : Char) (a1 a2 r : op_arith_arg)
    (h : make_arith_operation oc a1 a2 = .ok r) :
    r.type = spec_most_expressive a1.type a2.type := by
  cases a1 <;> cases a2 <;>
    simp only [make_arith_operation, op_arith_arg.type, arith_type.code,
      spec_most_expressive, arith_type.expressiveness,
      cast_arith_arg_to_double, cast_arith_arg_to_decimal,
      decimal_add, decimal_sub] at h ⊢ <;>
    norm_num at h <;>
    (repeat' split at h) <;>
    (try cases h) <;>
    simp_all [op_arith_arg.type]

/-- C5 witness: the amended theorem applied at INT + DOUBLE. -/
theorem C5_arith_result_type_witness :
    (op_arith_arg.dbl 2).type =
      spec_most_expressive (op_arith_arg.int 1).type
        (op_arith_arg.dbl 1).type :=
  C5_arith_result_type '+' (.int 1) (.dbl 1) (.dbl 2) make_arith_int_dbl_eval

/-! ## C4: splice (`update_op_do_splice` / `store_op_splice`,
`update_field.c:459-553`) -/

/-- `struct op_splice_arg` after `update_op_do_splice` normalisation. -/
structure op_splice_arg where
  offset : Int
  cut_length : Int
  paste : List Nat
  tail_offset : Int
  tail_length : Int
  deriving DecidableEq, Repr

/-- The offset clamp of `update_op_do_splice` (the non-error paths):
a negative offset is shifted by `str_len + 1`, a too-large positive
offset is clamped to `str_len`. -/
def splice_offset (offset0 str_len : Int) : Int :=
  if offset0 < 0 then offset0 + str_len + 1
  else if offset0 > str_len then str_len else offset0

/-- The cut clamp of `update_op_do_splice`: a negative cut counts from the
end of the remainder (clamped at 0), a too-large cut is clamped to the
remainder. -/
def splice_cut (cut0 offset str_len : Int) : Int :=
  if cut0 < 0 then
    if -cut0 > str_len - offset then 0 else cut0 + (str_len - offset)
  else if cut0 > str_len - offset then str_len - offset else cut0

/-- `update_op_do_splice` (`update_field.c:459-490`): normalise the splice
arguments against the current string payload `str` and compute
`op->new_field_len`.  Fails with the out-of-bound splice error iff
`-offset > str_len + 1`. -/
def update_op_do_splice (offset0 cut0 : Int) (paste str : List Nat) :
    Except UpdError (op_splice_arg × Nat) :=
  let str_len : Int := str.length
  if offset0 < 0 ∧ -offset0 > str_len + 1 then
    .error (.updateSplice "offset is out of bound")
  else
    let offset := splice_offset offset0 str_len
    let cut := splice_cut cut0 offset str_len
    let tail_offset := offset + cut
    let tail_length := str_len - tail_offset
    .ok (⟨offset, cut, paste, tail_offset, tail_length⟩,
      mp_sizeof_str (offset + (paste.length : Int) + tail_length).toNat)

/-- `store_op_splice` (`update_field.c:537-553`): the bytes written — the
string header for the new length, then `offset` head bytes of the old
payload, the paste, and `tail_length` bytes starting at `tail_offset`. -/
def store_op_splice (arg : op_splice_arg) (str : List Nat) : List Nat :=
  let new_str_len := (arg.offset + (arg.paste.length : Int) +
    arg.tail_length).toNat
  mp_encode_strl new_str_len ++
    str.take arg.offset.toNat ++ arg.paste ++
    (str.drop arg.tail_offset.toNat).take arg.tail_length.toNat

/-- C4 counterexample: splicing `"abc"` (length 3) at offset `-4 = -len-1`
does not fail — the offset is accepted and maps to position 0, the claim's
out-of-bound error is not raised. -/
theorem C4_counterexample :
    update_op_do_splice (-4) 0 [] [97, 98, 99] =
      .ok (⟨0, 0, [], 0, 3⟩, 4) ∧
    update_op_do_splice (-4) 0 [] [97, 98, 99] ≠
      .error (.updateSplice "offset is out of bound") := by
  constructor <;> decide

/-- C4 amended: a splice at offset `< -len-1` fails with the out-of-bound
splice error; any offset `≥ -len-1` is accepted — a negative one maps to
`offset + len + 1` (so `-len-1` maps to position 0, not an error), a
positive one is clamped to `len`; the cut is clamped to `[0, remaining]`;
and the stored payload is `src[..offset] ++ paste ++ src[offset+cut..]`. -/
theorem C4_splice (offset0 cut0 : Int) (paste str : List Nat) :
    (offset0 < -((str.length : Int) + 1) →
      update_op_do_splice offset0 cut0 paste str =
        .error (.updateSplice "offset is out of bound")) ∧
    (-((str.length : Int) + 1) ≤ offset0 →
      ∃ arg len, update_op_do_splice offset0 cut0 paste str = .ok (arg, len) ∧
        0 ≤ arg.offset ∧ arg.offset ≤ (str.length : Int) ∧
        (offset0 < 0 → arg.offset = offset0 + str.length + 1) ∧
        0 ≤ arg.cut_length ∧
        arg.cut_length ≤ (str.length : Int) - arg.offset ∧
        store_op_splice arg str =
          mp_encode_strl (arg.offset + (paste.length : Int) +
            arg.tail_length).toNat ++
          (str.take arg.offset.toNat ++ paste ++
            str.drop (arg.offset + arg.cut_length).toNat)) := by
  constructor
  · intro h
    have hc : offset0 < 0 ∧ -offset0 > (str.length : Int) + 1 := by omega
    simp [update_op_do_splice, hc]
  · intro h
    have hc : ¬(offset0 < 0 ∧ -offset0 > (str.length : Int) + 1) := by omega
    have hoff : 0 ≤ splice_offset offset0 str.length ∧
        splice_offset offset0 str.length ≤ (str.length : Int) := by
      unfold splice_offset
      split
      · omega
      · split <;> omega
    have hcut : 0 ≤ splice_cut cut0 (splice_offset offset0 str.length)
          str.length ∧
        splice_cut cut0 (splice_offset offset0 str.length) str.length ≤
          (str.length : Int) - splice_offset offset0 str.length := by
      unfold splice_cut
      split
      · split <;> omega
      · split <;> omega
    refine ⟨⟨splice_offset offset0 (str.length : Int),
        splice_cut cut0 (splice_offset offset0 (str.length : Int))
          (str.length : Int), paste,
        splice_offset offset0 (str.length : Int) +
          splice_cut cut0 (splice_offset offset0 (str.length : Int))
            (str.length : Int),
        (str.length : Int) - (splice_offset offset0 (str.length : Int) +
          splice_cut cut0 (splice_offset offset0 (str.length : Int))
            (str.length : Int))⟩,
      mp_sizeof_str (splice_offset offset0 (str.length : Int) +
        (paste.length : Int) +
        ((str.length : Int) - (splice_offset offset0 (str.length : Int) +
          splice_cut cut0 (splice_offset offset0 (str.length : Int))
            (str.length : Int)))).toNat,
      by simp [update_op_do_splice, hc], hoff.1, hoff.2, ?_,
      hcut.1, hcut.2, ?_⟩
    · intro hneg
      unfold splice_offset
      simp [hneg]
    · unfold store_op_splice
      simp only []
      have hdrop : ((str.drop (splice_offset offset0 str.length +
            splice_cut cut0 (splice_offset offset0 str.length)
              str.length).toNat).take
          ((str.length : Int) - (splice_offset offset0 str.length +
            splice_cut cut0 (splice_offset offset0 str.length)
              str.length)).toNat) =
          str.drop (splice_offset offset0 str.length +
            splice_cut cut0 (splice_offset offset0 str.length)
              str.length).toNat := by
        apply List.take_of_length_le
        simp
        omega
      simp [hdrop]

/-- C4 witness: the amended theorem applied to the splice of `"abc"` at
offset `-4`. -/
theorem C4_splice_witness :
    ∃ arg len, update_op_do_splice (-4) 0 [] [97, 98, 99] = .ok (arg, len) ∧
      0 ≤ arg.offset ∧ arg.offset ≤ (3 : Int) ∧
      ((-4 : Int) < 0 → arg.offset = -4 + (3 : Int) + 1) ∧
      0 ≤ arg.cut_length ∧
      arg.cut_length ≤ (3 : Int) - arg.offset ∧
      store_op_splice arg [97, 98, 99] =
        mp_encode_strl (arg.offset + (0 : Int) + arg.tail_length).toNat ++
        (([97, 98, 99] : List Nat).take arg.offset.toNat ++ [] ++
          ([97, 98, 99] : List Nat).drop (arg.offset + arg.cut_length).toNat) :=
  (C4_splice (-4) 0 [] [97, 98, 99]).2 (by decide)

/-! ## Fiber runtime (`src/src/lib/core/fiber.c`)

Fibers are identified by their fid (`Nat`).  Only the state the modelled
functions read or write is carried: the cord's ready list and, per
fiber, the flags `FIBER_IS_READY` / `FIBER_IS_DEAD` /
`FIBER_IS_CANCELLED` / `FIBER_IS_CANCELLABLE` and the diagnostics slot
(abstract bytes).  Wait lists other than `cord->ready` are outside the
model: `rlist_move_tail_entry` removing a fiber from one of them does
not change `cord->ready`, and a non-READY fiber is never on
`cord->ready` (spec §3 invariant (i)). -/

/-- Per-fiber flags and diagnostics area. -/
structure FiberData where
  is_ready : Bool
  is_dead : Bool
  is_cancelled : Bool
  is_cancellable : Bool
  diag : List Nat
  deriving DecidableEq, Repr

/-- The per-cord state touched by `fiber_wakeup` / `fiber_cancel`. -/
structure CordState where
  ready : List Nat
  fibers : Nat → FiberData

/-- Pointwise update of the fiber table. -/
def upd_fiber (g : Nat → FiberData) (k : Nat) (v : FiberData) :
    Nat → FiberData :=
  fun n => if n = k then v else g n

/-- `fiber_wakeup` (`fiber.c:278-327`): do nothing if the fiber is READY
or DEAD; otherwise move it to the tail of `cord->ready` and set READY
(the `ev_feed_event` poke of the loop carries no ordering state and is
not modelled). -/
def fiber_wakeup (f : Nat) (st : CordState) : CordState :=
  let fd := st.fibers f
  if fd.is_ready || fd.is_dead then st
  else
    { ready := st.ready.filter (fun x => x ≠ f) ++ [f],
      fibers := upd_fiber st.fibers f { fd with is_ready := true } }

/-- `fiber_cancel` (`fiber.c:343-365`): return immediately on a dead
fiber; otherwise set `FIBER_IS_CANCELLED` and, unless cancelling self,
wake the fiber if it is cancellable. -/
def fiber_cancel (self f : Nat) (st : CordState) : CordState :=
  if (st.fibers f).is_dead then st
  else
    let fd := st.fibers f
    let st1 : CordState :=
      { st with fibers := upd_fiber st.fibers f ({ fd with is_cancelled := true }) }
    if f ≠ self then
      if (st1.fibers f).is_cancellable then fiber_wakeup f st1 else st1
    else st1

/-- Waking a sequence of fibers in order (repeated `fiber_wakeup` within
one event-loop turn). -/
def wakeup_all (fs : List Nat) (st : CordState) : CordState :=
  fs.foldl (fun s f => fiber_wakeup f s) st

/-- The caller chain built by `fiber_schedule_list` (`fiber.c:564-588`):
`first` is the shifted head; each subsequent shifted fiber becomes the
previous one's `caller`; the last fiber's `caller` is the scheduler. -/
def build_chain (first : Nat) (rest : List Nat) (sched : Nat) :
    List (Nat × Nat) :=
  match rest with
  | [] => [(first, sched)]
  | f :: tl => (first, f) :: build_chain f tl sched

/-- Control-transfer order: `fiber_call_impl(first)` gives control to
`first`; on yield a fiber switches to its `caller` (`fiber_yield`), until
control returns to the scheduler. -/
def run_order (callers : List (Nat × Nat)) (sched : Nat) :
    Nat → Nat → List Nat
  | _, 0 => []
  | cur, fuel + 1 =>
    if cur = sched then []
    else
      match callers.lookup cur with
      | some nxt => cur :: run_order callers sched nxt fuel
      | none => [cur]

/-- `fiber_schedule_list` (`fiber.c:564-588`): the order in which the
fibers of the ready list receive control. -/
def fiber_schedule_list (ready : List Nat) (sched : Nat) : List Nat :=
  match ready with
  | [] => []
  | first :: rest =>
    let callers := build_chain first rest sched
    run_order callers sched first (callers.length + 1)

theorem lookup_skip (x : Nat) (outer rest : List (Nat × Nat))
    (h : ∀ p ∈ outer, p.1 ≠ x) :
    (outer ++ rest).lookup x = rest.lookup x := by
  induction outer with
  | nil => rfl
  | cons p tl ih =>
    have hp : (x == p.1) = false := by
      have := h p (by simp)
      simp
      omega
    simp only [List.cons_append, List.lookup, hp]
    exact ih fun q hq => h q (by simp [hq])

theorem lookup_cons_self (x v : Nat) (rest : List (Nat × Nat)) :
    (((x, v) :: rest).lookup x) = some v := by
  simp [List.lookup]

theorem run_order_build_chain (rest : List Nat) :
    ∀ (first sched : Nat) (outer : List (Nat × Nat)) (fuel : Nat),
      sched ∉ first :: rest → (first :: rest).Nodup →
      (∀ p ∈ outer, p.1 ∉ first :: rest) →
      rest.length + 1 ≤ fuel →
      run_order (outer ++ build_chain first rest sched) sched first fuel =
        first :: rest := by
  induction rest with
  | nil =>
    intro first sched outer fuel hs _ houter hfuel
    match fuel, hfuel with
    | fuel + 1, _ =>
      simp only [run_order]
      rw [if_neg (by simp at hs; omega)]
      rw [show build_chain first [] sched = [(first, sched)] from rfl]
      rw [lookup_skip first outer _
        (fun p hp => by have := houter p hp; simp at this; omega)]
      rw [lookup_cons_self]
      match fuel with
      | 0 => rfl
      | fuel + 1 => simp [run_order]
  | cons f tl ih =>
    intro first sched outer fuel hs hnd houter hfuel
    match fuel, hfuel with
    | fuel + 1, hfuel =>
      simp only [run_order]
      rw [if_neg (by simp at hs; tauto)]
      rw [show build_chain first (f :: tl) sched =
        (first, f) :: build_chain f tl sched from rfl]
      rw [lookup_skip first outer _
        (fun p hp => by have := houter p hp; simp at this; tauto)]
      rw [lookup_cons_self]
      have hre : outer ++ (first, f) :: build_chain f tl sched =
          (outer ++ [(first, f)]) ++ build_chain f tl sched := by
        simp
      show first :: run_order (outer ++ (first, f) :: build_chain f tl sched)
          sched f fuel = first :: f :: tl
      rw [hre, ih f sched (outer ++ [(first, f)]) fuel]
      · simp at hs ⊢; tauto
      · exact hnd.of_cons
      · intro p hp
        rcases List.mem_append.1 hp with h1 | h1
        · have := houter p (by simp [h1])
          simp at this ⊢
          tauto
        · simp at h1
          have hfm : first ∉ f :: tl := by
            have := hnd.not_mem
            simpa using this
          simp [h1]
          simpa using hfm
      · simpa using Nat.le_of_succ_le_succ hfuel

theorem wakeup_all_ready (fs : List Nat) :
    ∀ st : CordState, fs.Nodup →
      (∀ f ∈ fs, (st.fibers f).is_ready = false ∧
        (st.fibers f).is_dead = false) →
      (∀ f ∈ fs, f ∉ st.ready) →
      (wakeup_all fs st).ready = st.ready ++ fs := by
  induction fs with
  | nil => intro st _ _ _; simp [wakeup_all]
  | cons f tl ih =>
    intro st hnd hflags hmem
    have hf := hflags f (by simp)
    have hstep : fiber_wakeup f st =
        { ready := st.ready.filter (fun x => x ≠ f) ++ [f],
          fibers := upd_fiber st.fibers f
            ({ st.fibers f with is_ready := true }) } := by
      unfold fiber_wakeup
      rw [if_neg (by simp [hf.1, hf.2])]
    have hfilter : st.ready.filter (fun x => x ≠ f) = st.ready := by
      apply List.filter_eq_self.2
      intro x hx
      have : f ∉ st.ready := hmem f (by simp)
      simp
      intro hxf
      exact this (hxf ▸ hx)
    have hrec := ih (fiber_wakeup f st) hnd.of_cons ?_ ?_
    · show (wakeup_all tl (fiber_wakeup f st)).ready = st.ready ++ f :: tl
      rw [hrec, hstep]
      show (st.ready.filter (fun x => x ≠ f) ++ [f]) ++ tl =
        st.ready ++ f :: tl
      rw [hfilter]
      simp
    · intro g hg
      have hgf : g ≠ f := by
        have := hnd.not_mem
        intro he
        exact this (he ▸ hg)
      rw [hstep]
      simp [upd_fiber, hgf]
      exact hflags g (by simp [hg])
    · intro g hg
      have hgf : g ≠ f := by
        have := hnd.not_mem
        intro he
        exact this (he ▸ hg)
      rw [hstep]
      show g ∉ st.ready.filter (fun x => x ≠ f) ++ [f]
      intro hin
      rcases List.mem_append.1 hin with h1 | h1
      · exact hmem g (by simp [hg]) (List.mem_of_mem_filter h1)
      · simp at h1; exact hgf h1

/-- C2: fibers woken by `fiber_wakeup` within one event-loop turn are
appended at the tail of the cord's ready list in wakeup order, and
`fiber_schedule_list` chains the ready fibers caller-to-caller (the last
one to the scheduler) so that they run in exactly that FIFO order. -/
theorem C2_fifo_wakeup (fs : List Nat) (st : CordState) (sched : Nat)
    (hnd : fs.Nodup)
    (hflags : ∀ f ∈ fs, (st.fibers f).is_ready = false ∧
      (st.fibers f).is_dead = false)
    (hready : st.ready = [])
    (hsched : sched ∉ fs) :
    (wakeup_all fs st).ready = fs ∧
    fiber_schedule_list (wakeup_all fs st).ready sched = fs := by
  have h1 : (wakeup_all fs st).ready = fs := by
    rw [wakeup_all_ready fs st hnd hflags (by simp [hready]), hready]
    simp
  refine ⟨h1, ?_⟩
  rw [h1]
  cases fs with
  | nil => rfl
  | cons f tl =>
    have hlen : ∀ (tl' : List Nat) (f' : Nat),
        (build_chain f' tl' sched).length = tl'.length + 1 := by
      intro tl'
      induction tl' with
      | nil => intro f'; rfl
      | cons g gl ihg => intro f'; simp [build_chain, ihg]
    show run_order (build_chain f tl sched) sched f
      ((build_chain f tl sched).length + 1) = f :: tl
    rw [hlen]
    rw [show build_chain f tl sched =
      [] ++ build_chain f tl sched from rfl]
    exact run_order_build_chain tl f sched [] (tl.length + 1 + 1)
      hsched hnd (by simp) (by omega)

/-- C2 witness: three fresh fibers woken in order 1, 2, 3 on an empty
ready list run in order 1, 2, 3. -/
theorem C2_fifo_wakeup_witness :
    (wakeup_all [1, 2, 3]
      ⟨[], fun _ => ⟨false, false, false, false, []⟩⟩).ready = [1, 2, 3] ∧
    fiber_schedule_list (wakeup_all [1, 2, 3]
      ⟨[], fun _ => ⟨false, false, false, false, []⟩⟩).ready 0 =
        [1, 2, 3] :=
  C2_fifo_wakeup [1, 2, 3] ⟨[], fun _ => ⟨false, false, false, false, []⟩⟩ 0
    (by decide) (by intro f hf; exact ⟨rfl, rfl⟩) rfl (by decide)

/-- C9: cancelling a fiber that is already DEAD is a complete no-op:
`fiber_cancel` returns before touching the flags, the ready list or the
diagnostics area, so the whole cord state — in particular the dead
fiber's flags and diagnostics — is unchanged. -/
theorem C9_cancel_dead_noop (self f : Nat) (st : CordState)
    (h : (st.fibers f).is_dead = true) :
    fiber_cancel self f st = st := by
  unfold fiber_cancel
  rw [if_pos h]

/-- C9 witness: the theorem applied to a concrete dead fiber with a
non-empty diagnostics slot. -/
theorem C9_cancel_dead_noop_witness :
    fiber_cancel 1 2
      ⟨[7], fun _ => ⟨false, true, false, true, [9]⟩⟩ =
      ⟨[7], fun _ => ⟨false, true, false, true, [9]⟩⟩ :=
  C9_cancel_dead_noop 1 2 ⟨[7], fun _ => ⟨false, true, false, true, [9]⟩⟩ rfl

/-! ## C8: fid assignment of `fiber_new_ex` (`fiber.c:939-992`)

`fiber_new_ex` assigns `fiber->fid` from the cord's 32-bit `max_fid`
counter: `if (++cord->max_fid < FIBER_ID_MAX_RESERVED) cord->max_fid =
FIBER_ID_MAX_RESERVED + 1; fiber->fid = cord->max_fid;`.  `cord_create`
initialises `max_fid = FIBER_ID_MAX_RESERVED` (`fiber.c:1071`).  The
numeric value of `FIBER_ID_MAX_RESERVED` lives in `fiber.h`, which is
not part of the excerpt, so the definitions are parametric in it;
`max_fid` is a `uint32_t`, so the increment is taken `% 2^32`. -/

/-- One `fiber_new_ex` fid assignment: increment `max_fid` (32-bit) and
bump it past the reserved range. -/
def fiber_new_fid_step (maxReserved max_fid : Nat) : Nat :=
  if (max_fid + 1) % 2 ^ 32 < maxReserved then maxReserved + 1
  else (max_fid + 1) % 2 ^ 32

/-- `cord->max_fid` after `k` fiber creations on a fresh cord
(initial value `FIBER_ID_MAX_RESERVED`). -/
def max_fid_after (maxReserved : Nat) : Nat → Nat
  | 0 => maxReserved
  | k + 1 => fiber_new_fid_step maxReserved (max_fid_after maxReserved k)

/-- The fid assigned by the `k`-th call to `fiber_new_ex` (1-based):
`fiber->fid = cord->max_fid` after the update. -/
def fiber_fid_at (maxReserved k : Nat) : Nat := max_fid_after maxReserved k

theorem max_fid_after_no_wrap (maxReserved : Nat) :
    ∀ k : Nat, maxReserved + k ≤ 2 ^ 32 - 1 →
      max_fid_after maxReserved k = maxReserved + k := by
  intro k
  induction k with
  | zero => intro _; simp [max_fid_after]
  | succ n ihn =>
    intro h
    have hn := ihn (by omega)
    show fiber_new_fid_step maxReserved (max_fid_after maxReserved n) =
      maxReserved + (n + 1)
    rw [hn]
    unfold fiber_new_fid_step
    have hlt : maxReserved + n + 1 < 2 ^ 32 := by omega
    rw [Nat.mod_eq_of_lt hlt]
    rw [if_neg (by omega)]
    omega

theorem max_fid_after_lower (maxReserved : Nat)
    (hR : maxReserved + 1 < 2 ^ 32) :
    ∀ k : Nat, maxReserved ≤ max_fid_after maxReserved k ∧
      max_fid_after maxReserved k < 2 ^ 32 := by
  intro k
  induction k with
  | zero => simp only [max_fid_after]; exact ⟨le_refl _, by omega⟩
  | succ n ihn =>
    show maxReserved ≤ fiber_new_fid_step maxReserved
        (max_fid_after maxReserved n) ∧
      fiber_new_fid_step maxReserved (max_fid_after maxReserved n) < 2 ^ 32
    unfold fiber_new_fid_step
    split
    · omega
    · constructor
      · omega
      · exact Nat.mod_lt _ (by norm_num)

/-- C8 counterexample: with `FIBER_ID_MAX_RESERVED = 3`, the first call
assigns fid 4, and after the 32-bit counter wraps, call number
`2^32 - 3` assigns fid 4 again — so the fid of a later call is not
strictly greater than all previously assigned fids, and fids are reused
within the cord's lifetime. -/
theorem C8_counterexample :
    fiber_fid_at 3 1 = 4 ∧ fiber_fid_at 3 (2 ^ 32 - 3) = 4 ∧
      (1 : Nat) < 2 ^ 32 - 3 := by
  refine ⟨by decide, ?_, by norm_num⟩
  have hprev : max_fid_after 3 (2 ^ 32 - 4) = 2 ^ 32 - 1 := by
    have := max_fid_after_no_wrap 3 (2 ^ 32 - 4) (by norm_num)
    rw [this]
    omega
  have hstep : fiber_fid_at 3 (2 ^ 32 - 3) =
      fiber_new_fid_step 3 (max_fid_after 3 (2 ^ 32 - 4)) := by
    show max_fid_after 3 (2 ^ 32 - 3) = _
    rw [show (2 ^ 32 - 3 : Nat) = (2 ^ 32 - 4) + 1 by norm_num]
    rfl
  rw [hstep, hprev]
  unfold fiber_new_fid_step
  norm_num

/-- C8 amended: within one cord the fids assigned by `fiber_new_ex` are
strictly increasing until the 32-bit `max_fid` counter wraps (i.e. for
calls `i < j` with `FIBER_ID_MAX_RESERVED + j ≤ 2^32 - 1`); after the
wrap, fids restart above the reserved range and may repeat.  A user
fiber's fid is always strictly greater than `FIBER_ID_MAX_RESERVED`,
hence never in the reserved range. -/
theorem C8_fid_monotone_until_wrap (maxReserved i j : Nat)
    (hR : 1 ≤ maxReserved) (hR2 : maxReserved + 1 < 2 ^ 32) :
    (i < j → maxReserved + j ≤ 2 ^ 32 - 1 →
      fiber_fid_at maxReserved i < fiber_fid_at maxReserved j) ∧
    (1 ≤ i → maxReserved < fiber_fid_at maxReserved i) := by
  constructor
  · intro hij hj
    unfold fiber_fid_at
    rw [max_fid_after_no_wrap maxReserved i (by omega),
        max_fid_after_no_wrap maxReserved j hj]
    omega
  · intro hi
    match i, hi with
    | k + 1, _ =>
      show maxReserved < fiber_new_fid_step maxReserved
        (max_fid_after maxReserved k)
      have hlow := max_fid_after_lower maxReserved hR2 k
      unfold fiber_new_fid_step
      split
      · omega
      · rename_i hge
        by_cases hw : max_fid_after maxReserved k + 1 < 2 ^ 32
        · rw [Nat.mod_eq_of_lt hw] at hge ⊢
          omega
        · have : max_fid_after maxReserved k + 1 = 2 ^ 32 := by omega
          rw [this] at hge
          simp at hge
          omega

/-- C8 witness: with `FIBER_ID_MAX_RESERVED = 3`, the second fid (5) is
greater than the first (4), and the first fid is above the reserved
range. -/
theorem C8_fid_monotone_witness :
    fiber_fid_at 3 1 < fiber_fid_at 3 2 ∧ 3 < fiber_fid_at 3 1 :=
  ⟨(C8_fid_monotone_until_wrap 3 1 2 (by decide) (by norm_num)).1
      (by decide) (by norm_num),
   (C8_fid_monotone_until_wrap 3 1 2 (by decide) (by norm_num)).2
      (by decide)⟩

/-! ## C7: integer field address in `update_op_decode`
(`update_field.c:611-696`, MP_INT/MP_UINT branch, lines 641-655) -/

/-- The integer field-address branch of `update_op_decode`: store
`field_no - index_base` when that is non-negative, keep a negative
address as is (tail-relative), otherwise fail with
`ER_NO_SUCH_FIELD_NO`. -/
def update_op_decode_field_no (index_base field_no : Int) :
    Except UpdError Int :=
  if field_no - index_base ≥ 0 then .ok (field_no - index_base)
  else if field_no < 0 then .ok field_no
  else .error (.noSuchFieldNo field_no)

/-- C7: for an integer field address and `index_base ∈ {0, 1}`: an address
`≥ index_base` is stored as `address - index_base`; a negative address is
kept negative; an address in `[0, index_base)` fails with the no-such-field
error. -/
theorem C7_decode_field_no (index_base field_no : Int)
    (hib : index_base = 0 ∨ index_base = 1) :
    (index_base ≤ field_no →
      update_op_decode_field_no index_base field_no =
        .ok (field_no - index_base)) ∧
    (field_no < 0 →
      update_op_decode_field_no index_base field_no = .ok field_no) ∧
    (0 ≤ field_no → field_no < index_base →
      update_op_decode_field_no index_base field_no =
        .error (.noSuchFieldNo field_no)) := by
  refine ⟨?_, ?_, ?_⟩
  · intro h
    unfold update_op_decode_field_no
    rw [if_pos (by omega)]
  · intro h
    unfold update_op_decode_field_no
    rw [if_neg (by omega), if_pos h]
  · intro h1 h2
    unfold update_op_decode_field_no
    rw [if_neg (by omega), if_neg (by omega)]

/-- C7 witness: with `index_base = 1`, address 5 stores 4, address −2 is
kept, and address 0 fails with no-such-field. -/
theorem C7_decode_field_no_witness :
    update_op_decode_field_no 1 5 = .ok 4 ∧
    update_op_decode_field_no 1 (-2) = .ok (-2) ∧
    update_op_decode_field_no 1 0 = .error (.noSuchFieldNo 0) :=
  ⟨(C7_decode_field_no 1 5 (Or.inr rfl)).1 (by decide),
   (C7_decode_field_no 1 (-2) (Or.inr rfl)).2.1 (by decide),
   (C7_decode_field_no 1 0 (Or.inr rfl)).2.2 (by decide) (by decide)⟩

/-! ## C10: operation-count cap in `update_read_ops` (`update.c:139-252`) -/

/-- Modelled from the spec: `BOX_UPDATE_OP_CNT_MAX`, the "fixed maximum
operation count", is defined in a header outside the excerpt; its exact
numeric value (4000 in the full repository) is irrelevant to the claim,
which only compares the count against it. -/
def BOX_UPDATE_OP_CNT_MAX : Nat := 4000

/-- The per-op decode loop of `update_read_ops`: decode each operation in
order, aborting on the first failure (`update_op_decode` is the black box
`dec`). -/
def decode_op_list {α β : Type} (dec : α → Except UpdError β) :
    List α → Except UpdError (List β)
  | [] => .ok []
  | x :: tl =>
    match dec x with
    | .error e => .error e
    | .ok b =>
      match decode_op_list dec tl with
      | .error e => .error e
      | .ok bs => .ok (b :: bs)

/-- `update_read_ops` (`update.c:139-252`), control flow: fail unless the
expression is an array (`none` models a non-array); fail with
`IllegalParams "too many operations for update"` when the decoded count
exceeds `BOX_UPDATE_OP_CNT_MAX` — before any operation is decoded; then
decode the operations one by one.  The column-mask accumulation
(`update.c:174-241`) has no early exit and no effect on the result list,
and is omitted; the final `expr != expr_end` check is represented by the
item list being exactly the array's contents. -/
def update_read_ops {α β : Type} (dec : α → Except UpdError β) :
    Option (List α) → Except UpdError (List β)
  | none => .error (.illegalParams
      "update operations must be an array {{op,..}, {op,..}}")
  | some items =>
    if items.length > BOX_UPDATE_OP_CNT_MAX then
      .error (.illegalParams "too many operations for update")
    else
      decode_op_list dec items

/-- C10: whenever the operation array holds more than
`BOX_UPDATE_OP_CNT_MAX` operations, `update_read_ops` fails with the
IllegalParams "too many operations for update" error, for **every**
per-op decoder — i.e. before any single operation is decoded — so the
whole request is rejected. -/
theorem C10_too_many_ops {α β : Type} (dec : α → Except UpdError β)
    (items : List α) (h : items.length > BOX_UPDATE_OP_CNT_MAX) :
    update_read_ops dec (some items) =
      .error (.illegalParams "too many operations for update") := by
  simp only [update_read_ops]
  rw [if_pos h]

/-- C10 witness: 4001 copies of an operation that does not even decode
are rejected with the too-many-operations error without being decoded. -/
theorem C10_too_many_ops_witness :
    update_read_ops (fun _ : Nat =>
        (Except.error UpdError.unknownUpdateOp : Except UpdError Nat))
      (some (List.replicate 4001 0)) =
      .error (.illegalParams "too many operations for update") :=
  C10_too_many_ops _ _
    (by rw [List.length_replicate]; norm_num [BOX_UPDATE_OP_CNT_MAX])

/-! ## C3: upsert error handling (`upsert_do_ops`, `update.c:287-309`)

Every decoded operation's `do_op` is a state transformer on the update
tree (the black box here); a failure carries either a `ClientError`
(`e->type == &type_ClientError`) or another, fatal, error type. -/

/-- The error raised by a failing `do_op`: a client error or a fatal
(non-client) one. -/
inductive ExecError
  | client (e : UpdError)
  | fatal (code : Nat)
  deriving DecidableEq, Repr

/-- `e->type == &type_ClientError`. -/
def ExecError.isClient : ExecError → Bool
  | .client _ => true
  | .fatal _ => false

/-- `upsert_do_ops` (`update.c:287-309`): apply each op in order; on a
successful op continue with the new tree; on a failure with a non-client
error abort the whole upsert; on a client error skip the op (keeping the
tree) and, only when `suppress_error` is **false**, append the error to
the log (`say_error` / `error_log`).  Returns the final tree and log. -/
def upsert_do_ops {St : Type} (suppress_error : Bool)
    (ops : List (St → Except ExecError St)) (root : St)
    (log : List ExecError) : Except ExecError (St × List ExecError) :=
  match ops with
  | [] => .ok (root, log)
  | op :: tl =>
    match op root with
    | .ok root' => upsert_do_ops suppress_error tl root' log
    | .error e =>
      if e.isClient = false then .error e
      else
        upsert_do_ops suppress_error tl root
          (if suppress_error then log else log ++ [e])

/-- The claim's words, "the failing op is skipped, and the remaining ops
are still applied": fold the ops over the tree, keeping the old tree
across failures. -/
def apply_skipping {St : Type} (ops : List (St → Except ExecError St))
    (root : St) : St :=
  match ops with
  | [] => root
  | op :: tl =>
    match op root with
    | .ok root' => apply_skipping tl root'
    | .error _ => apply_skipping tl root

/-- The errors raised along the `apply_skipping` evaluation path. -/
def collect_failures {St : Type} (ops : List (St → Except ExecError St))
    (root : St) : List ExecError :=
  match ops with
  | [] => []
  | op :: tl =>
    match op root with
    | .ok root' => collect_failures tl root'
    | .error e => e :: collect_failures tl root

/-- C3 counterexample: in upsert mode with `suppress_error = true`, an op
failing with a client error is skipped but **not** logged — the run
succeeds with an empty log, against the claim that the failure is
logged. -/
theorem C3_counterexample :
    upsert_do_ops true
      [fun _ => Except.error (ExecError.client .unknownUpdateOp)]
      (0 : Nat) [] = .ok (0, []) ∧
    (fun _ => Except.error (ExecError.client .unknownUpdateOp) :
      Nat → Except ExecError Nat) 0 =
      .error (.client .unknownUpdateOp) := by
  constructor <;> rfl

/-- C3 amended: every per-op failure of the client-error kind is skipped
and the remaining ops are still applied; the failure is logged exactly
when `suppress_error` is **false** (with `suppress_error = true` it is
suppressed silently); a non-client (fatal) error aborts the whole
upsert. -/
theorem C3_upsert_error_handling {St : Type} (suppress_error : Bool)
    (ops : List (St → Except ExecError St)) (root : St)
    (log : List ExecError) :
    ((∀ op ∈ ops, ∀ s : St, (match op s with
        | .error e => e.isClient
        | .ok _ => true) = true) →
      upsert_do_ops suppress_error ops root log =
        .ok (apply_skipping ops root,
          log ++ (if suppress_error then []
            else collect_failures ops root))) ∧
    (∀ pre (op : St → Except ExecError St) tl e,
      ops = pre ++ op :: tl →
      (∀ op' ∈ pre, ∀ s : St, (match op' s with
        | .error e' => e'.isClient
        | .ok _ => true) = true) →
      op (apply_skipping pre root) = .error e →
      e.isClient = false →
      upsert_do_ops suppress_error ops root log = .error e) := by
  constructor
  · induction ops generalizing root log with
    | nil => intro _; simp [upsert_do_ops, apply_skipping, collect_failures]
    | cons op tl ih =>
      intro hcl
      have hop := hcl op (by simp)
      simp only [upsert_do_ops, apply_skipping, collect_failures]
      cases hres : op root with
      | ok root' =>
        simp only []
        rw [ih root' log (fun o ho s => hcl o (by simp [ho]) s)]
      | error e =>
        have he : e.isClient = true := by
          have := hop root
          rw [hres] at this
          exact this
        simp only [he]
        rw [if_neg (by simp [he])]
        rw [ih root _ (fun o ho s => hcl o (by simp [ho]) s)]
        cases suppress_error <;> simp
  · induction ops generalizing root log with
    | nil =>
      intro pre op tl e habs
      exact absurd habs (by simp)
    | cons op0 tl0 ih =>
      intro pre op tl e heq hcl hop hfatal
      cases pre with
      | nil =>
        simp only [List.nil_append] at heq
        cases heq
        have hop' : op0 root = Except.error e := hop
        simp only [upsert_do_ops, hop']
        rw [if_pos hfatal]
      | cons p ptl =>
        simp only [List.cons_append, List.cons.injEq] at heq
        obtain ⟨h1, h2⟩ := heq
        subst h1
        subst h2
        have hp := hcl op0 (by simp)
        cases hres : op0 root with
        | ok root' =>
          simp only [upsert_do_ops, hres]
          exact ih root' log ptl op tl e rfl
            (fun o ho s => hcl o (by simp [ho]) s)
            (by
              have harr : apply_skipping (op0 :: ptl) root =
                  apply_skipping ptl root' := by
                simp [apply_skipping, hres]
              rw [← harr]; exact hop)
            hfatal
        | error e0 =>
          have he0 : e0.isClient = true := by
            have := hp root
            rw [hres] at this
            exact this
          simp only [upsert_do_ops, hres]
          rw [if_neg (by simp [he0])]
          exact ih root _ ptl op tl e rfl
            (fun o ho s => hcl o (by simp [ho]) s)
            (by
              have harr : apply_skipping (op0 :: ptl) root =
                  apply_skipping ptl root := by
                simp [apply_skipping, hres]
              rw [← harr]; exact hop)
            hfatal

/-- C3 witness: with `suppress_error = false` a client-error op is
skipped, the remaining op still applied, and the error logged. -/
theorem C3_upsert_error_handling_witness :
    upsert_do_ops false
      [fun _ => Except.error (ExecError.client .unknownUpdateOp),
       fun s => Except.ok (s + 1)] (0 : Nat) [] =
      .ok (1, [ExecError.client .unknownUpdateOp]) :=
  (C3_upsert_error_handling false
    [fun _ => Except.error (ExecError.client .unknownUpdateOp),
     fun s => Except.ok (s + 1)] 0 []).1
    (by intro op hop s; simp at hop; rcases hop with h | h <;> subst h <;> rfl)

/-! ## C6: `tuple_upsert_squash` (`update.c:383-495`)

The squash walks the two decoded op arrays (each op keeping a pointer
into its serialized bytes, here `raw`) merge-style by field number. -/

/-- One decoded upsert operation as `tuple_upsert_squash` sees it:
opcode, decoded field number, the arith argument union member, and the
op's serialized bytes in the expression (copied verbatim when the op is
taken from one side). -/
structure squash_op where
  opcode : Char
  field_no : Int
  arith : op_arith_arg
  raw : List Nat
  deriving DecidableEq, Repr

/-- `int96_invert(&op->arg.arith.int96)` as used by `tuple_upsert_squash`:
negate the int96 member of the argument union.  For a non-INT payload the
C code flips bytes shared with the other union members — a memory-layout
effect with no meaning in this embedding; such payloads (not exercised by
the claim) are modelled as unchanged. -/
def int96_invert_arith : op_arith_arg → op_arith_arg
  | .int v => .int (int96_invert v)
  | a => a

/-- The precondition scan of `tuple_upsert_squash` (`update.c:398-407`):
only `'+'`, `'-'`, `'='` opcodes, strictly increasing field numbers,
starting from `prev = index_base - 1`. -/
def squash_ops_ok : Int → List squash_op → Bool
  | _, [] => true
  | prev, op :: tl =>
    if op.opcode ≠ '+' ∧ op.opcode ≠ '-' ∧ op.opcode ≠ '=' then false
    else if op.field_no ≤ prev then false
    else squash_ops_ok op.field_no tl

/-- The merge loop of `tuple_upsert_squash` (`update.c:424-487`),
returning `res_count` and the emitted op bytes:

* the op with the strictly lower field number is copied verbatim;
* on a tie with a right-hand `'='`, the left op is dropped and the right
  one copied;
* on any other tie the two ops are folded: the left one, if its opcode is
  `'-'`, is turned into `'+'` with `int96`-inverted argument, then
  `make_arith_operation` applies the **right** op (its opcode and
  argument) to the left argument; the folded op is emitted re-encoded as
  `[opcode_of_left, field_no + index_base, result]`; an arith failure
  aborts the squash. -/
def squash_merge (index_base : Int) :
    Nat → List squash_op → List squash_op → Option (Nat × List Nat)
  | 0, _, _ => none
  | _ + 1, [], [] => some (0, [])
  | fuel + 1, l :: ls, [] =>
    match squash_merge index_base fuel ls [] with
    | none => none
    | some (n, rest) => some (n + 1, l.raw ++ rest)
  | fuel + 1, [], r :: rs =>
    match squash_merge index_base fuel [] rs with
    | none => none
    | some (n, rest) => some (n + 1, r.raw ++ rest)
  | fuel + 1, l :: ls, r :: rs =>
    if l.field_no < r.field_no then
      match squash_merge index_base fuel ls (r :: rs) with
      | none => none
      | some (n, rest) => some (n + 1, l.raw ++ rest)
    else if r.field_no < l.field_no then
      match squash_merge index_base fuel (l :: ls) rs with
      | none => none
      | some (n, rest) => some (n + 1, r.raw ++ rest)
    else if r.opcode = '=' then
      match squash_merge index_base fuel ls rs with
      | none => none
      | some (n, rest) => some (n + 1, r.raw ++ rest)
    else
      let lop : squash_op :=
        if l.opcode = '-' then
          { l with opcode := '+', arith := int96_invert_arith l.arith }
        else l
      match make_arith_operation r.opcode lop.arith r.arith with
      | .error _ => none
      | .ok res =>
        match squash_merge index_base fuel ls rs with
        | none => none
        | some (n, rest) =>
          some (n + 1, (mp_encode_array 3 ++
            mp_encode_str [lop.opcode.toNat] ++
            mp_encode_uint (l.field_no + index_base).toNat ++
            store_op_arith res) ++ rest)

/-- `tuple_upsert_squash` (`update.c:383-495`): check the preconditions
on both op lists, merge them, and prepend the result-array header.  The
C merge loop runs at most `op_count[0] + op_count[1]` iterations (each
iteration consumes at least one op), so that bound plus one is passed as
fuel and is never exhausted. -/
def tuple_upsert_squash (index_base : Int) (ops1 ops2 : List squash_op) :
    Option (List Nat) :=
  if ¬squash_ops_ok (index_base - 1) ops1 then none
  else if ¬squash_ops_ok (index_base - 1) ops2 then none
  else
    match squash_merge index_base (ops1.length + ops2.length + 1)
        ops1 ops2 with
    | none => none
    | some (res_count, body) => some (mp_encode_array res_count ++ body)

/-- C6 counterexample: squashing left `[['+',2,1],['=',3,"x"]]` with
right `[['-',2,4],['=',3,"y"]]` (`index_base = 1`, decoded field numbers
1 and 2) yields the bytes of `[['+',2,-3],['=',3,"y"]]` — the folded op
keeps the left opcode `'+'` and value `1 - 4 = -3` — not the claimed
bytes of `[['-',2,3],['=',3,"y"]]`. -/
theorem C6_counterexample :
    tuple_upsert_squash 1
      [⟨'+', 1, .int 1, [0x93, 0xa1, 0x2b, 0x02, 0x01]⟩,
       ⟨'=', 2, .int 0, [0x93, 0xa1, 0x3d, 0x03, 0xa1, 0x78]⟩]
      [⟨'-', 1, .int 4, [0x93, 0xa1, 0x2d, 0x02, 0x04]⟩,
       ⟨'=', 2, .int 0, [0x93, 0xa1, 0x3d, 0x03, 0xa1, 0x79]⟩] =
      some [0x92, 0x93, 0xa1, 0x2b, 0x02, 0xfd,
            0x93, 0xa1, 0x3d, 0x03, 0xa1, 0x79] ∧
    some [0x92, 0x93, 0xa1, 0x2b, 0x02, 0xfd,
          0x93, 0xa1, 0x3d, 0x03, 0xa1, 0x79] ≠
      some [0x92, 0x93, 0xa1, 0x2d, 0x02, 0x03,
            0x93, 0xa1, 0x3d, 0x03, 0xa1, 0x79] := by
  constructor <;> decide

/-- The left operand after `tuple_upsert_squash`'s pre-merge
normalisation (`update.c:467-470`): a `'-'` op is turned into `'+'`
with its int96 argument inverted; any other op is used as is. -/
def squash_invert_left (l : squash_op) : squash_op :=
  if l.opcode = '-' then
    { l with opcode := '+', arith := int96_invert_arith l.arith }
  else l

/-- C6 amended: the squash merges by field number — the op with the
strictly lower field number is copied verbatim (from either side); a tie
with a right-hand `'='` drops the left op and copies the right one; any
other tie folds the two ops into one whose opcode is the **left** op's
(a `'-'` left op is inverted to `'+'` first, its int96 argument negated)
and whose value combines the left value with the right value via the
**right** opcode; in particular left `[['+',2,1],['=',3,"x"]]` and right
`[['-',2,4],['=',3,"y"]]` squash to `[['+',2,-3],['=',3,"y"]]`. -/
theorem C6_squash (l r : squash_op) (ls rs : List squash_op)
    (index_base : Int) (res : op_arith_arg) (fuel n : Nat)
    (rest : List Nat) :
    (l.field_no < r.field_no →
      squash_merge index_base fuel ls (r :: rs) = some (n, rest) →
      squash_merge index_base (fuel + 1) (l :: ls) (r :: rs) =
        some (n + 1, l.raw ++ rest)) ∧
    (r.field_no < l.field_no →
      squash_merge index_base fuel (l :: ls) rs = some (n, rest) →
      squash_merge index_base (fuel + 1) (l :: ls) (r :: rs) =
        some (n + 1, r.raw ++ rest)) ∧
    (l.field_no = r.field_no → r.opcode = '=' →
      squash_merge index_base fuel ls rs = some (n, rest) →
      squash_merge index_base (fuel + 1) (l :: ls) (r :: rs) =
        some (n + 1, r.raw ++ rest)) ∧
    (l.field_no = r.field_no → r.opcode ≠ '=' →
      make_arith_operation r.opcode (squash_invert_left l).arith r.arith =
        .ok res →
      squash_merge index_base fuel ls rs = some (n, rest) →
      squash_merge index_base (fuel + 1) (l :: ls) (r :: rs) =
        some (n + 1, (mp_encode_array 3 ++
          mp_encode_str [(squash_invert_left l).opcode.toNat] ++
          mp_encode_uint (l.field_no + index_base).toNat ++
          store_op_arith res) ++ rest)) ∧
    tuple_upsert_squash 1
      [⟨'+', 1, .int 1, [0x93, 0xa1, 0x2b, 0x02, 0x01]⟩,
       ⟨'=', 2, .int 0, [0x93, 0xa1, 0x3d, 0x03, 0xa1, 0x78]⟩]
      [⟨'-', 1, .int 4, [0x93, 0xa1, 0x2d, 0x02, 0x04]⟩,
       ⟨'=', 2, .int 0, [0x93, 0xa1, 0x3d, 0x03, 0xa1, 0x79]⟩] =
      some [0x92, 0x93, 0xa1, 0x2b, 0x02, 0xfd,
            0x93, 0xa1, 0x3d, 0x03, 0xa1, 0x79] := by
  refine ⟨?_, ?_, ?_, ?_, by decide⟩
  · intro hlt hrec
    rw [squash_merge]
    rw [if_pos hlt]
    simp only [hrec]
  · intro hlt hrec
    rw [squash_merge]
    rw [if_neg (by omega), if_pos hlt]
    simp only [hrec]
  · intro htie hset hrec
    rw [squash_merge]
    rw [if_neg (by omega), if_neg (by omega), if_pos hset]
    simp only [hrec]
  · intro htie hne hres hrec
    rw [squash_merge]
    rw [if_neg (by omega), if_neg (by omega), if_neg hne]
    simp only [squash_invert_left] at hres ⊢
    simp only [hres, hrec]

/-- C6 witness: the copy rule applied to `['+',2,_]` before `['=',3,_]`
(lower decoded field 1 on the left), and the fold rule applied to the
tie `['-',2,1]` / `['-',2,4]`, whose left op is inverted to `'+'` with
argument `-1` before the fold, giving value `-1 - 4 = -5`. -/
theorem C6_squash_witness :
    squash_merge 1 3
      [⟨'+', 1, .int 1, [0x93, 0xa1, 0x2b, 0x02, 0x01]⟩]
      [⟨'=', 2, .int 0, [0x93, 0xa1, 0x3d, 0x03, 0xa1, 0x79]⟩] =
      some (2, [0x93, 0xa1, 0x2b, 0x02, 0x01] ++
        ([0x93, 0xa1, 0x3d, 0x03, 0xa1, 0x79] ++ [])) ∧
    squash_merge 1 2
      [⟨'-', 1, .int 1, [0x93, 0xa1, 0x2d, 0x02, 0x01]⟩]
      [⟨'-', 1, .int 4, [0x93, 0xa1, 0x2d, 0x02, 0x04]⟩] =
      some (1, (mp_encode_array 3 ++
        mp_encode_str [(squash_invert_left
          ⟨'-', 1, .int 1, [0x93, 0xa1, 0x2d, 0x02, 0x01]⟩).opcode.toNat] ++
        mp_encode_uint ((1 : Int) + 1).toNat ++
        store_op_arith (.int (-5))) ++ []) :=
  ⟨(C6_squash ⟨'+', 1, .int 1, [0x93, 0xa1, 0x2b, 0x02, 0x01]⟩
      ⟨'=', 2, .int 0, [0x93, 0xa1, 0x3d, 0x03, 0xa1, 0x79]⟩ [] [] 1
      (.int 0) 2 1 ([0x93, 0xa1, 0x3d, 0x03, 0xa1, 0x79] ++ [])).1
    (by decide) (by decide),
   (C6_squash ⟨'-', 1, .int 1, [0x93, 0xa1, 0x2d, 0x02, 0x01]⟩
      ⟨'-', 1, .int 4, [0x93, 0xa1, 0x2d, 0x02, 0x04]⟩ [] [] 1
      (.int (-5)) 1 0 []).2.2.2.1 rfl (by decide) (by decide) rfl⟩

end Tarantool
